import Mathlib

/-!
Verification of the layered-configuration / CLI / email-adapter contracts of
`bitranox_template_py_cli`.

The Python sources are shallowly embedded: configuration trees become an
inductive `Value` type over custom association lists, fallible operations
return `Except`, and external collaborators (the SMTP transport, the runtime
recipient validator) become explicit function parameters.  Definitions whose
Python source lives outside the repository snapshot (the override parser, the
profile validator, the redaction primitive of `lib_layered_config`) are
modelled from the specification and say so in their doc comments.
-/

set_option autoImplicit false

namespace BitranoxTemplate

/-! ## Basic string utilities -/

/-- A single-quote character as a string (ASCII 39), used in error messages. -/
def sq : String := String.singleton (Char.ofNat 39)

/-- Left brace as text. -/
def lbr : String := "\x7b"

/-- Right brace as text. -/
def rbr : String := "\x7d"

/-- Does `needle` occur as a contiguous infix of `hay`?  Mirrors Python's
`needle in hay` substring test for ASCII data. -/
def hasInfix (needle : List Char) : List Char → Bool
  | [] => needle.isEmpty
  | c :: rest => needle.isPrefixOf (c :: rest) || hasInfix needle rest

/-- Substring containment on strings, mirroring Python's `in` operator. -/
def containsSub (needle hay : String) : Bool :=
  hasInfix needle.data hay.data

/-- ASCII lowercase of one character, mirroring Python `str.lower` on the
ASCII range (all keys and keywords in the claims are ASCII). -/
def lowerChar (c : Char) : Char :=
  if 65 ≤ c.toNat ∧ c.toNat ≤ 90 then Char.ofNat (c.toNat + 32) else c

/-- ASCII lowercase of a string. -/
def lowerString (s : String) : String := ⟨s.data.map lowerChar⟩

/-- Split a character list at the first occurrence of `c`, mirroring
Python's `s.split(c, 1)` when the separator occurs (`none` when it does
not). -/
def splitFirstChar (c : Char) : List Char → Option (List Char × List Char)
  | [] => none
  | x :: xs =>
    if x = c then some ([], xs)
    else (splitFirstChar c xs).map (fun p => (x :: p.1, p.2))

/-- Split a character list on every occurrence of `c`, mirroring Python's
`s.split(c)`; always returns at least one (possibly empty) segment. -/
def splitAllChar (c : Char) : List Char → List (List Char)
  | [] => [[]]
  | x :: xs =>
    if x = c then [] :: splitAllChar c xs
    else
      match splitAllChar c xs with
      | [] => [[x]]
      | seg :: rest => (x :: seg) :: rest

/-! ## Configuration values

A configuration tree is a mapping from string keys to scalar, list, or
nested-mapping values (spec section 3).  Mappings are insertion-ordered
association lists, like Python dicts.  TOML/dotenv/env layers cannot
produce nulls, so there is no null constructor.  Python floats are carried
as their literal text: no claim performs float arithmetic. -/

mutual

inductive Value where
  | vStr (s : String)
  | vInt (n : Int)
  | vBool (b : Bool)
  | vFloat (lit : String)
  | vList (xs : ValueList)
  | vDict (es : EntryList)

inductive ValueList where
  | nil
  | cons (v : Value) (tail : ValueList)

inductive EntryList where
  | nil
  | cons (k : String) (v : Value) (tail : EntryList)

end

mutual

/-- Decidable equality on values. -/
def Value.beq : Value → Value → Bool
  | .vStr a, .vStr b => a == b
  | .vInt a, .vInt b => a == b
  | .vBool a, .vBool b => a == b
  | .vFloat a, .vFloat b => a == b
  | .vList a, .vList b => ValueList.beq a b
  | .vDict a, .vDict b => EntryList.beq a b
  | _, _ => false

/-- Decidable equality on value lists. -/
def ValueList.beq : ValueList → ValueList → Bool
  | .nil, .nil => true
  | .cons v t, .cons v' t' => Value.beq v v' && ValueList.beq t t'
  | _, _ => false

/-- Decidable equality on entry lists. -/
def EntryList.beq : EntryList → EntryList → Bool
  | .nil, .nil => true
  | .cons k v t, .cons k' v' t' => k == k' && Value.beq v v' && EntryList.beq t t'
  | _, _ => false

end

mutual

theorem valueBeqRefl : ∀ v : Value, Value.beq v v = true
  | .vStr _ => by simp [Value.beq]
  | .vInt _ => by simp [Value.beq]
  | .vBool _ => by simp [Value.beq]
  | .vFloat _ => by simp [Value.beq]
  | .vList xs => by simp [Value.beq, valueListBeqRefl xs]
  | .vDict es => by simp [Value.beq, entryListBeqRefl es]

theorem valueListBeqRefl : ∀ xs : ValueList, ValueList.beq xs xs = true
  | .nil => rfl
  | .cons v t => by simp [ValueList.beq, valueBeqRefl v, valueListBeqRefl t]

theorem entryListBeqRefl : ∀ es : EntryList, EntryList.beq es es = true
  | .nil => rfl
  | .cons k v t => by simp [EntryList.beq, valueBeqRefl v, entryListBeqRefl t]

end

mutual

theorem valueEqOfBeq : ∀ {a b : Value}, Value.beq a b = true → a = b
  | .vStr _, .vStr _, h => by simpa [Value.beq] using congrArg Value.vStr (by simpa [Value.beq] using h)
  | .vInt _, .vInt _, h => by simpa [Value.beq] using congrArg Value.vInt (by simpa [Value.beq] using h)
  | .vBool _, .vBool _, h => by simpa [Value.beq] using congrArg Value.vBool (by simpa [Value.beq] using h)
  | .vFloat _, .vFloat _, h => by simpa [Value.beq] using congrArg Value.vFloat (by simpa [Value.beq] using h)
  | .vList a, .vList b, h => by
      have := valueListEqOfBeq (a := a) (b := b) (by simpa [Value.beq] using h)
      exact congrArg Value.vList this
  | .vDict a, .vDict b, h => by
      have := entryListEqOfBeq (a := a) (b := b) (by simpa [Value.beq] using h)
      exact congrArg Value.vDict this

theorem valueListEqOfBeq : ∀ {a b : ValueList}, ValueList.beq a b = true → a = b
  | .nil, .nil, _ => rfl
  | .cons v t, .cons v' t', h => by
      have h' := h
      simp only [ValueList.beq, Bool.and_eq_true] at h'
      have h1 := valueEqOfBeq h'.1
      have h2 := valueListEqOfBeq h'.2
      rw [h1, h2]

theorem entryListEqOfBeq : ∀ {a b : EntryList}, EntryList.beq a b = true → a = b
  | .nil, .nil, _ => rfl
  | .cons k v t, .cons k' v' t', h => by
      have h' := h
      simp only [EntryList.beq, Bool.and_eq_true] at h'
      have hk : k = k' := by simpa using h'.1.1
      have h1 := valueEqOfBeq h'.1.2
      have h2 := entryListEqOfBeq h'.2
      rw [hk, h1, h2]

end

instance : DecidableEq Value := fun a b =>
  if h : Value.beq a b = true then
    .isTrue (valueEqOfBeq h)
  else
    .isFalse (fun he => h (he ▸ valueBeqRefl a))

instance : DecidableEq ValueList := fun a b =>
  if h : ValueList.beq a b = true then
    .isTrue (valueListEqOfBeq h)
  else
    .isFalse (fun he => h (he ▸ valueListBeqRefl a))

instance : DecidableEq EntryList := fun a b =>
  if h : EntryList.beq a b = true then
    .isTrue (entryListEqOfBeq h)
  else
    .isFalse (fun he => h (he ▸ entryListBeqRefl a))

/-- First value stored under key `k`, like Python `dict` lookup. -/
def lookupEntry (k : String) : EntryList → Option Value
  | .nil => none
  | .cons k' v t => if k' = k then some v else lookupEntry k t

/-- Python `d[k] = v`: replace the first binding of `k` in place, or append a
new binding at the end (insertion order preserved). -/
def insertEntry (k : String) (v : Value) : EntryList → EntryList
  | .nil => .cons k v .nil
  | .cons k' v' t => if k' = k then .cons k' v t else .cons k' v' (insertEntry k v t)

/-- Is the value a mapping? -/
def Value.isDict : Value → Bool
  | .vDict _ => true
  | _ => false

/-- Is the value a scalar (not a mapping, not a list)? -/
def Value.isScalar : Value → Bool
  | .vList _ => false
  | .vDict _ => false
  | _ => true

theorem lookupEntry_insertEntry_self (k : String) (v : Value) :
    ∀ es : EntryList, lookupEntry k (insertEntry k v es) = some v
  | .nil => by simp [insertEntry, lookupEntry]
  | .cons k' v' t => by
      by_cases h : k' = k
      · simp [insertEntry, lookupEntry, h]
      · simp [insertEntry, lookupEntry, h, lookupEntry_insertEntry_self k v t]

/-! ## Redaction filter

Modelled from the spec: the `redact_mapping` primitive lives in the external
`lib_layered_config` package (not part of this repository snapshot); its
contract is spec section 4.3.  Any key whose lowercased name contains one of
the sensitive substrings is replaced with the fixed sentinel; nested mappings
and mappings inside sequences are walked recursively; non-matching keys and
non-mapping leaves pass through unchanged. -/

/-- Sensitive key substrings shared by the redaction filter (spec 4.3) and the
email adapter's `_SENSITIVE_KEYWORDS` (src `adapters/email/sender.py`). -/
def sensitiveKeywords : List String :=
  ["password", "credential", "auth", "secret", "token", "key", "login"]

/-- The fixed redaction sentinel. -/
def redactedSentinel : String := "***REDACTED***"

/-- Does the lowercased key contain a sensitive substring? -/
def isSensitiveKey (k : String) : Bool :=
  sensitiveKeywords.any (fun w => containsSub w (lowerString k))

mutual

/-- Redact a value reached through a non-sensitive key: recurse into
mappings and sequences, leave scalar leaves unchanged. -/
def redactValue : Value → Value
  | .vDict es => .vDict (redactEntries es)
  | .vList xs => .vList (redactList xs)
  | v => v

/-- Redact each element of a sequence. -/
def redactList : ValueList → ValueList
  | .nil => .nil
  | .cons v t => .cons (redactValue v) (redactList t)

/-- Redact a mapping: sensitive keys get the sentinel, other values are
walked recursively. -/
def redactEntries : EntryList → EntryList
  | .nil => .nil
  | .cons k v t =>
      .cons k (if isSensitiveKey k then .vStr redactedSentinel else redactValue v)
        (redactEntries t)

end

mutual

/-- Every sensitive key at any nesting depth holds exactly the sentinel. -/
def cleanValue : Value → Bool
  | .vDict es => cleanEntries es
  | .vList xs => cleanList xs
  | _ => true

/-- Sequence version of `cleanValue`. -/
def cleanList : ValueList → Bool
  | .nil => true
  | .cons v t => cleanValue v && cleanList t

/-- Mapping version of `cleanValue`. -/
def cleanEntries : EntryList → Bool
  | .nil => true
  | .cons k v t =>
      (if isSensitiveKey k then Value.beq v (.vStr redactedSentinel) else cleanValue v)
        && cleanEntries t

end

mutual

/-- Does `x` occur as a subvalue of `v` (including `v` itself)? -/
def occursValue (x : Value) : Value → Bool
  | .vDict es => Value.beq x (.vDict es) || occursEntries x es
  | .vList xs => Value.beq x (.vList xs) || occursList x xs
  | v => Value.beq x v

/-- Does `x` occur in some element of the sequence? -/
def occursList (x : Value) : ValueList → Bool
  | .nil => false
  | .cons v t => occursValue x v || occursList x t

/-- Does `x` occur among the values of the mapping, at any depth? -/
def occursEntries (x : Value) : EntryList → Bool
  | .nil => false
  | .cons _ v t => occursValue x v || occursEntries x t

end

mutual

/-- Does `x` occur at a position that is not at or below a sensitive key? -/
def occursNSValue (x : Value) : Value → Bool
  | .vDict es => Value.beq x (.vDict es) || occursNSEntries x es
  | .vList xs => Value.beq x (.vList xs) || occursNSList x xs
  | v => Value.beq x v

/-- Sequence version of `occursNSValue`. -/
def occursNSList (x : Value) : ValueList → Bool
  | .nil => false
  | .cons v t => occursNSValue x v || occursNSList x t

/-- Mapping version of `occursNSValue`: values below a sensitive key do not
count as non-sensitive occurrences. -/
def occursNSEntries (x : Value) : EntryList → Bool
  | .nil => false
  | .cons k v t =>
      (if isSensitiveKey k then false else occursNSValue x v) || occursNSEntries x t

end

mutual

theorem redactValue_idem : ∀ v : Value, redactValue (redactValue v) = redactValue v
  | .vStr _ => rfl
  | .vInt _ => rfl
  | .vBool _ => rfl
  | .vFloat _ => rfl
  | .vList xs => by simp [redactValue, redactList_idem xs]
  | .vDict es => by simp [redactValue, redactEntries_idem es]

theorem redactList_idem : ∀ xs : ValueList, redactList (redactList xs) = redactList xs
  | .nil => rfl
  | .cons v t => by simp [redactList, redactValue_idem v, redactList_idem t]

theorem redactEntries_idem : ∀ es : EntryList, redactEntries (redactEntries es) = redactEntries es
  | .nil => rfl
  | .cons k v t => by
      by_cases h : isSensitiveKey k = true
      · simp [redactEntries, h, redactEntries_idem t]
      · simp [redactEntries, h, redactValue_idem v, redactEntries_idem t]

end

mutual

theorem cleanValue_redact : ∀ v : Value, cleanValue (redactValue v) = true
  | .vStr _ => rfl
  | .vInt _ => rfl
  | .vBool _ => rfl
  | .vFloat _ => rfl
  | .vList xs => by simp [redactValue, cleanValue, cleanList_redact xs]
  | .vDict es => by simp [redactValue, cleanValue, cleanEntries_redact es]

theorem cleanList_redact : ∀ xs : ValueList, cleanList (redactList xs) = true
  | .nil => rfl
  | .cons v t => by simp [redactList, cleanList, cleanValue_redact v, cleanList_redact t]

theorem cleanEntries_redact : ∀ es : EntryList, cleanEntries (redactEntries es) = true
  | .nil => rfl
  | .cons k v t => by
      by_cases h : isSensitiveKey k = true
      · simp [redactEntries, cleanEntries, h, valueBeqRefl, cleanEntries_redact t]
      · simp [redactEntries, cleanEntries, h, cleanValue_redact v, cleanEntries_redact t]

end

theorem lookupEntry_redact_sensitive (k : String) (hk : isSensitiveKey k = true) :
    ∀ (es : EntryList) (v : Value), lookupEntry k es = some v →
      lookupEntry k (redactEntries es) = some (.vStr redactedSentinel)
  | .nil, _, h => by simp [lookupEntry] at h
  | .cons k' v' t, v, h => by
      by_cases he : k' = k
      · subst he
        simp [lookupEntry, redactEntries, hk]
      · simp only [lookupEntry, redactEntries, if_neg he] at h ⊢
        exact lookupEntry_redact_sensitive k hk t v h

theorem lookupEntry_redact_nonsensitive (k : String) (hk : isSensitiveKey k = false) :
    ∀ es : EntryList,
      lookupEntry k (redactEntries es) = (lookupEntry k es).map redactValue
  | .nil => by simp [lookupEntry, redactEntries]
  | .cons k' v' t => by
      by_cases he : k' = k
      · subst he
        simp [lookupEntry, redactEntries, hk]
      · simp only [lookupEntry, redactEntries, if_neg he]
        exact lookupEntry_redact_nonsensitive k hk t

theorem redactValue_scalar (v : Value) (h : v.isScalar = true) : redactValue v = v := by
  cases v <;> simp [Value.isScalar] at h <;> rfl

theorem occursValue_scalar_eq (x v : Value) (hv : v.isScalar = true)
    (h : occursValue x v = true) : x = v := by
  cases v <;> simp [Value.isScalar] at hv <;>
    exact valueEqOfBeq (by simpa [occursValue] using h)

mutual

theorem occurs_redactValue (x : Value) (hx : x.isScalar = true)
    (hs : x ≠ .vStr redactedSentinel) :
    ∀ v : Value, occursValue x (redactValue v) = true → occursNSValue x v = true
  | .vStr s, h => by simpa [redactValue, occursNSValue] using h
  | .vInt n, h => by simpa [redactValue, occursNSValue] using h
  | .vBool b, h => by simpa [redactValue, occursNSValue] using h
  | .vFloat f, h => by simpa [redactValue, occursNSValue] using h
  | .vList xs, h => by
      have hbx : Value.beq x (.vList (redactList xs)) = false := by
        cases x <;> simp [Value.isScalar] at hx <;> simp [Value.beq]
      simp only [redactValue, occursValue, hbx, Bool.false_or] at h
      have := occurs_redactList x hx hs xs h
      cases x <;> simp [Value.isScalar] at hx <;> simp [occursNSValue, this, Value.beq]
  | .vDict es, h => by
      have hbx : Value.beq x (.vDict (redactEntries es)) = false := by
        cases x <;> simp [Value.isScalar] at hx <;> simp [Value.beq]
      simp only [redactValue, occursValue, hbx, Bool.false_or] at h
      have := occurs_redactEntries x hx hs es h
      cases x <;> simp [Value.isScalar] at hx <;> simp [occursNSValue, this, Value.beq]

theorem occurs_redactList (x : Value) (hx : x.isScalar = true)
    (hs : x ≠ .vStr redactedSentinel) :
    ∀ xs : ValueList, occursList x (redactList xs) = true → occursNSList x xs = true
  | .nil, h => by simp [redactList, occursList] at h
  | .cons v t, h => by
      simp only [redactList, occursList, Bool.or_eq_true] at h
      rcases h with h | h
      · have := occurs_redactValue x hx hs v h
        simp [occursNSList, this]
      · have := occurs_redactList x hx hs t h
        simp [occursNSList, this]

theorem occurs_redactEntries (x : Value) (hx : x.isScalar = true)
    (hs : x ≠ .vStr redactedSentinel) :
    ∀ es : EntryList, occursEntries x (redactEntries es) = true → occursNSEntries x es = true
  | .nil, h => by simp [redactEntries, occursEntries] at h
  | .cons k v t, h => by
      simp only [redactEntries, occursEntries, Bool.or_eq_true] at h
      rcases h with h | h
      · by_cases hk : isSensitiveKey k = true
        · rw [if_pos hk] at h
          have : x = .vStr redactedSentinel := by
            simpa [occursValue] using valueEqOfBeq (by simpa [occursValue] using h)
          exact absurd this hs
        · rw [if_neg hk] at h
          have := occurs_redactValue x hx hs v h
          simp [occursNSEntries, hk, this]
      · have := occurs_redactEntries x hx hs t h
        simp [occursNSEntries, this]

end

/-- Sample configuration with sensitive keys at several nesting depths,
including inside a list of mappings. -/
def c2sample : EntryList :=
  .cons "password" (.vStr "hunter2")
    (.cons "db"
      (.vDict (.cons "api_key" (.vStr "k1") (.cons "host" (.vStr "dbhost") .nil)))
      (.cons "servers"
        (.vList (.cons (.vDict (.cons "token" (.vStr "t0") .nil)) .nil))
        .nil))

/-- C2: redaction is pure and total over nested mappings and sequences, and
idempotent; every key whose lowercased name contains a sensitive substring
holds the fixed sentinel in the output at any nesting depth; a scalar that
occurs in the input only at sensitive positions does not occur in the output;
non-matching keys keep their (recursively redacted) values and non-mapping
leaves pass through unchanged. -/
theorem claim_C2_redaction :
    (∀ es : EntryList, redactEntries (redactEntries es) = redactEntries es)
    ∧ (∀ es : EntryList, cleanEntries (redactEntries es) = true)
    ∧ (∀ (k : String) (es : EntryList) (v : Value), isSensitiveKey k = true →
        lookupEntry k es = some v →
        lookupEntry k (redactEntries es) = some (.vStr redactedSentinel))
    ∧ (∀ (k : String) (es : EntryList), isSensitiveKey k = false →
        lookupEntry k (redactEntries es) = (lookupEntry k es).map redactValue)
    ∧ (∀ v : Value, v.isScalar = true → redactValue v = v)
    ∧ (∀ (x : Value) (es : EntryList), x.isScalar = true → x ≠ .vStr redactedSentinel →
        occursNSEntries x es = false → occursEntries x (redactEntries es) = false) := by
  refine ⟨redactEntries_idem, cleanEntries_redact, ?_, ?_, redactValue_scalar, ?_⟩
  · intro k es v hk hl
    exact lookupEntry_redact_sensitive k hk es v hl
  · intro k es hk
    exact lookupEntry_redact_nonsensitive k hk es
  · intro x es hx hs hns
    by_contra hocc
    have hocc' : occursEntries x (redactEntries es) = true := by
      revert hocc
      cases occursEntries x (redactEntries es) <;> simp
    have := occurs_redactEntries x hx hs es hocc'
    rw [hns] at this
    exact Bool.false_ne_true this

/-- Witness for C2 at a concrete configuration: idempotence, sentinel
placement at top level, nested depth and inside a list of mappings, scalar
pass-through, and disappearance of the original secret values. -/
theorem claim_C2_redaction_witness :
    redactEntries (redactEntries c2sample) = redactEntries c2sample
    ∧ cleanEntries (redactEntries c2sample) = true
    ∧ lookupEntry "password" (redactEntries c2sample) = some (.vStr redactedSentinel)
    ∧ lookupEntry "host" (redactEntries c2sample) = (lookupEntry "host" c2sample).map redactValue
    ∧ redactValue (.vStr "dbhost") = .vStr "dbhost"
    ∧ occursEntries (.vStr "hunter2") (redactEntries c2sample) = false := by
  obtain ⟨h1, h2, h3, h4, h5, h6⟩ := claim_C2_redaction
  exact ⟨h1 c2sample, h2 c2sample,
    h3 "password" c2sample (.vStr "hunter2") (by decide) (by decide),
    h4 "host" c2sample (by decide),
    h5 (.vStr "dbhost") (by decide),
    h6 (.vStr "hunter2") c2sample (by decide) (by decide) (by decide)⟩

/-! ## Override parser

Modelled from the spec: `adapters/config/overrides.py` is not part of this
repository snapshot; only its caller `_apply_cli_overrides`
(src `adapters/cli/root.py`) is.  Spec section 4.2 gives the contract: split
each directive on the first `=` (failing with `MalformedOverride` when
absent), require at least one `.` in the key part, walk the tree along the
dotted key creating missing intermediate mappings and rejecting non-mapping
intermediates with `InvalidOverrideTarget`, then store the coerced value, in
order. -/

deriving instance DecidableEq for Except

inductive OverrideError where
  | malformedOverride (directive : String)
  | invalidOverrideTarget (directive : String)
deriving DecidableEq

/-- Is the character an ASCII digit? -/
def isDigitChar (c : Char) : Bool := 48 ≤ c.toNat && c.toNat ≤ 57

/-- Modelled from the spec: an integer-looking value string — an optional
sign followed by one or more digits (Python `int(...)` niceties such as
underscores or surrounding whitespace are not modelled). -/
def isIntLit : List Char → Bool
  | [] => false
  | c :: rest =>
    if c = '-' || c = '+' then !rest.isEmpty && rest.all isDigitChar
    else isDigitChar c && rest.all isDigitChar

/-- Digits to a natural number. -/
def digitsToNat (cs : List Char) : Nat :=
  cs.foldl (fun a c => a * 10 + (c.toNat - 48)) 0

/-- Parse a signed decimal integer literal. -/
def parseIntChars : List Char → Int
  | '-' :: rest => -(digitsToNat rest : Int)
  | '+' :: rest => (digitsToNat rest : Int)
  | cs => (digitsToNat cs : Int)

/-- Modelled from the spec: a float-looking value string — an optional sign,
then digits with exactly one decimal point and at least one digit
(exponent notation is not modelled). -/
def isFloatLit (cs : List Char) : Bool :=
  let body := match cs with
    | c :: rest => if c = '-' || c = '+' then rest else cs
    | [] => []
  body.any isDigitChar
    && body.all (fun c => isDigitChar c || c = '.')
    && (body.filter (fun c => c = '.')).length == 1

/-- Modelled from the spec: best-effort coercion of an override value string:
`true`/`false` case-insensitively become booleans, integer-looking strings
integers, float-looking strings floats (carried as the literal), everything
else stays a string verbatim. -/
def coerceValue (vcs : List Char) : Value :=
  let s : String := ⟨vcs⟩
  if lowerString s = "true" then .vBool true
  else if lowerString s = "false" then .vBool false
  else if isIntLit vcs then .vInt (parseIntChars vcs)
  else if isFloatLit vcs then .vFloat s
  else .vStr s

/-- Walk a dotted path through nested mappings. -/
def getPath : EntryList → List String → Option Value
  | _, [] => none
  | es, [k] => lookupEntry k es
  | es, k :: rest =>
    match lookupEntry k es with
    | some (.vDict sub) => getPath sub rest
    | _ => none

/-- Store a value at a dotted path, creating missing intermediate mappings
and rejecting non-mapping intermediates; `d` is the offending directive
reported on failure. -/
def setPath (d : String) (x : Value) : EntryList → List String → Except OverrideError EntryList
  | _, [] => .error (.malformedOverride d)
  | es, [k] => .ok (insertEntry k x es)
  | es, k :: rest =>
    match lookupEntry k es with
    | none =>
        match setPath d x .nil rest with
        | .error e => .error e
        | .ok sub => .ok (insertEntry k (.vDict sub) es)
    | some (.vDict sub) =>
        match setPath d x sub rest with
        | .error e => .error e
        | .ok sub' => .ok (insertEntry k (.vDict sub') es)
    | some _ => .error (.invalidOverrideTarget d)

/-- Apply one `SECTION.KEY=VALUE` directive. -/
def applyStep (es : EntryList) (d : String) : Except OverrideError EntryList :=
  match splitFirstChar '=' d.data with
  | none => .error (.malformedOverride d)
  | some (kcs, vcs) =>
    if (splitAllChar '.' kcs).length < 2 then .error (.malformedOverride d)
    else setPath d (coerceValue vcs) es ((splitAllChar '.' kcs).map (fun cs => (⟨cs⟩ : String)))

/-- Apply directives in the order given, stopping at the first failure. -/
def applyOverrides (es : EntryList) : List String → Except OverrideError EntryList
  | [] => .ok es
  | d :: ds =>
    match applyStep es d with
    | .error e => .error e
    | .ok es' => applyOverrides es' ds

/-- Read back a dotted key. -/
def getDotted (es : EntryList) (key : String) : Option Value :=
  getPath es ((splitAllChar '.' key.data).map (fun cs => (⟨cs⟩ : String)))

/-- A directive is well formed when it has an `=` and its key part contains
a `.`. -/
def wellFormedDirective (d : String) : Bool :=
  match splitFirstChar '=' d.data with
  | none => false
  | some (kcs, _) => 2 ≤ (splitAllChar '.' kcs).length

theorem getPath_setPath (d : String) (x : Value) :
    ∀ (segs : List String) (es es' : EntryList),
      setPath d x es segs = .ok es' → getPath es' segs = some x
  | [], es, es', h => by simp [setPath] at h
  | [k], es, es', h => by
      simp only [setPath, Except.ok.injEq] at h
      subst h
      simp [getPath, lookupEntry_insertEntry_self]
  | k :: k' :: rest, es, es', h => by
      simp only [setPath] at h
      cases hl : lookupEntry k es with
      | none =>
          simp only [hl] at h
          cases hs : setPath d x .nil (k' :: rest) with
          | error e => simp [hs] at h
          | ok sub =>
              simp only [hs, Except.ok.injEq] at h
              subst h
              simp [getPath, lookupEntry_insertEntry_self,
                getPath_setPath d x (k' :: rest) .nil sub hs]
      | some v =>
          simp only [hl] at h
          cases v with
          | vDict sub =>
              cases hs : setPath d x sub (k' :: rest) with
              | error e => simp [hs] at h
              | ok sub' =>
                  simp only [hs, Except.ok.injEq] at h
                  subst h
                  simp [getPath, lookupEntry_insertEntry_self,
                    getPath_setPath d x (k' :: rest) sub sub' hs]
          | vStr s => simp at h
          | vInt n => simp at h
          | vBool b => simp at h
          | vFloat f => simp at h
          | vList xs => simp at h

theorem applyOverrides_append_ok :
    ∀ (ds : List String) (es es' : EntryList) (d : String),
      applyOverrides es (ds ++ [d]) = .ok es' →
      ∃ es₁, applyOverrides es ds = .ok es₁ ∧ applyStep es₁ d = .ok es'
  | [], es, es', d, h => by
      simp only [List.nil_append, applyOverrides] at h
      cases hs : applyStep es d with
      | error e => simp [hs] at h
      | ok es₁ =>
          simp only [hs, applyOverrides] at h
          exact ⟨es, by simp [applyOverrides], by rw [hs, h]⟩
  | d₀ :: ds, es, es', d, h => by
      simp only [List.cons_append, applyOverrides] at h
      cases hs : applyStep es d₀ with
      | error e => simp [hs] at h
      | ok es₁ =>
          simp only [hs] at h
          obtain ⟨es₂, h1, h2⟩ := applyOverrides_append_ok ds es₁ es' d h
          exact ⟨es₂, by simp [applyOverrides, hs, h1], h2⟩

theorem applyStep_ok_wellFormed (es es' : EntryList) (d : String)
    (h : applyStep es d = .ok es') : wellFormedDirective d = true := by
  unfold applyStep at h
  unfold wellFormedDirective
  cases hs : splitFirstChar '=' d.data with
  | none => simp [hs] at h
  | some p =>
      obtain ⟨kcs, vcs⟩ := p
      simp only [hs] at h ⊢
      by_cases hl : (splitAllChar '.' kcs).length < 2
      · simp [hl] at h
      · simp only [decide_eq_true_eq]
        omega

theorem applyOverrides_ok_wellFormed :
    ∀ (ds : List String) (es es' : EntryList),
      applyOverrides es ds = .ok es' → ∀ d ∈ ds, wellFormedDirective d = true
  | [], _, _, _, d, hd => by simp at hd
  | d₀ :: ds, es, es', h, d, hd => by
      simp only [applyOverrides] at h
      cases hs : applyStep es d₀ with
      | error e => simp [hs] at h
      | ok es₁ =>
          simp only [hs] at h
          rcases List.mem_cons.mp hd with he | ht
          · subst he; exact applyStep_ok_wellFormed es es₁ d hs
          · exact applyOverrides_ok_wellFormed ds es₁ es' h d ht

theorem applyOverrides_bad_head (es : EntryList) (d : String) (ds : List String)
    (h : wellFormedDirective d = false) :
    applyOverrides es (d :: ds) = .error (.malformedOverride d) := by
  unfold wellFormedDirective at h
  simp only [applyOverrides, applyStep]
  cases hs : splitFirstChar '=' d.data with
  | none => simp [hs]
  | some p =>
      obtain ⟨kcs, vcs⟩ := p
      simp only [hs, decide_eq_false_iff_not, not_le] at h
      have hl : (splitAllChar '.' kcs).length < 2 := by omega
      simp [hs, hl]

theorem splitAllChar_ne_nil (c : Char) : ∀ cs, splitAllChar c cs ≠ []
  | [] => by simp [splitAllChar]
  | x :: xs => by
      by_cases h : x = c
      · simp [splitAllChar, h]
      · simp only [splitAllChar, if_neg h]
        cases hs : splitAllChar c xs with
        | nil => simp
        | cons seg rest => simp

theorem splitAllChar_two_iff :
    ∀ (c : Char) (cs : List Char), 2 ≤ (splitAllChar c cs).length ↔ c ∈ cs
  | c, [] => by simp [splitAllChar]
  | c, x :: xs => by
      by_cases h : x = c
      · subst h
        have hsplit : splitAllChar x (x :: xs) = [] :: splitAllChar x xs := by
          simp [splitAllChar]
        rw [hsplit]
        have h1 : 1 ≤ (splitAllChar x xs).length :=
          List.length_pos.mpr (splitAllChar_ne_nil x xs)
        simp only [List.length_cons, List.mem_cons]
        constructor
        · intro _
          exact Or.inl trivial
        · intro _
          omega
      · cases hs : splitAllChar c xs with
        | nil => exact absurd hs (splitAllChar_ne_nil c xs)
        | cons seg rest =>
            have hiff := splitAllChar_two_iff c xs
            rw [hs] at hiff
            have hsplit : splitAllChar c (x :: xs) = (x :: seg) :: rest := by
              simp [splitAllChar, h, hs]
            rw [hsplit]
            simp only [List.length_cons, List.mem_cons] at hiff ⊢
            constructor
            · intro h2
              exact Or.inr (hiff.mp (by omega))
            · rintro (he | ht)
              · exact absurd he.symm h
              · have := hiff.mpr ht
                omega

/-- C1: applying a valid `SECTION.KEY=VALUE` directive (at least one `=`, at
least one `.` in the key part) as the last of a successfully applied
directive list and then reading back the dotted key yields the coerced value
— so directives apply in order and a later directive targeting the same key
wins; a directive with no `=` or with no `.` in its key part makes
application fail with `MalformedOverride` (no configuration is produced);
a successful application implies every directive was well formed; and well
formedness is exactly "has `=` and a `.` in the key part". -/
theorem claim_C1_override_roundtrip :
    (∀ (es : EntryList) (ds : List String) (d : String) (kcs vcs : List Char)
        (es' : EntryList),
        splitFirstChar '=' d.data = some (kcs, vcs) →
        '.' ∈ kcs →
        applyOverrides es (ds ++ [d]) = .ok es' →
        getDotted es' ⟨kcs⟩ = some (coerceValue vcs))
    ∧ (∀ (es : EntryList) (d : String) (ds : List String),
        wellFormedDirective d = false →
        applyOverrides es (d :: ds) = .error (.malformedOverride d))
    ∧ (∀ (es es' : EntryList) (ds : List String),
        applyOverrides es ds = .ok es' → ∀ d ∈ ds, wellFormedDirective d = true)
    ∧ (∀ d : String, wellFormedDirective d = true ↔
        ∃ kcs vcs, splitFirstChar '=' d.data = some (kcs, vcs) ∧ '.' ∈ kcs) := by
  refine ⟨?_, applyOverrides_bad_head, ?_, ?_⟩
  · intro es ds d kcs vcs es' hsplit hdot happ
    obtain ⟨es₁, _, hstep⟩ := applyOverrides_append_ok ds es es' d happ
    unfold applyStep at hstep
    simp only [hsplit] at hstep
    have hlen : 2 ≤ (splitAllChar '.' kcs).length := (splitAllChar_two_iff '.' kcs).mpr hdot
    rw [if_neg (by omega)] at hstep
    exact getPath_setPath d (coerceValue vcs)
      ((splitAllChar '.' kcs).map (fun cs => (⟨cs⟩ : String))) es₁ es' hstep
  · intro es es' ds h d hd
    exact applyOverrides_ok_wellFormed ds es es' h d hd
  · intro d
    unfold wellFormedDirective
    cases hs : splitFirstChar '=' d.data with
    | none => simp
    | some p =>
        obtain ⟨kcs, vcs⟩ := p
        simp only [decide_eq_true_eq]
        constructor
        · intro h
          exact ⟨kcs, vcs, rfl, (splitAllChar_two_iff '.' kcs).mp h⟩
        · rintro ⟨kcs', vcs', he, hdot⟩
          obtain ⟨h1, h2⟩ := Prod.mk.injEq .. ▸ Option.some.injEq .. ▸ he
          subst h1
          exact (splitAllChar_two_iff '.' kcs).mpr hdot

/-- Base configuration for the C1 witness. -/
def c1base : EntryList :=
  .cons "server" (.vDict (.cons "port" (.vInt 80) .nil)) .nil

/-- Result of applying the C1 witness directives. -/
def c1result : EntryList :=
  .cons "server" (.vDict (.cons "port" (.vInt 9090) .nil)) .nil

/-- Witness for C1: two directives on the same key applied in order, the
later one winning on read-back; malformed directives failing; and one
concrete coercion from each class. -/
theorem claim_C1_override_roundtrip_witness :
    getDotted c1result ⟨"server.port".data⟩ = some (coerceValue "9090".data)
    ∧ applyOverrides c1base ["noequals"] = .error (.malformedOverride "noequals")
    ∧ applyOverrides c1base ["toplevel=1"] = .error (.malformedOverride "toplevel=1")
    ∧ coerceValue "TRUE".data = .vBool true
    ∧ coerceValue "false".data = .vBool false
    ∧ coerceValue "42".data = .vInt 42
    ∧ coerceValue "-7".data = .vInt (-7)
    ∧ coerceValue "3.14".data = .vFloat "3.14"
    ∧ coerceValue "8080".data = .vInt 8080
    ∧ coerceValue "hello world".data = .vStr "hello world" := by
  obtain ⟨h1, h2, _h3, _h4⟩ := claim_C1_override_roundtrip
  refine ⟨?_, ?_, ?_, by decide, by decide, by decide, by decide, by decide, by decide, by decide⟩
  · exact h1 c1base ["server.port=8080"] "server.port=9090"
      "server.port".data "9090".data c1result (by decide) (by decide) (by decide)
  · exact h2 c1base "noequals" [] (by decide)
  · exact h2 c1base "toplevel=1" [] (by decide)

/-! ## Profile validation and configuration loading

Modelled from the spec: the profile validator and layered loader live in
`adapters/config/loader.py` / `lib_layered_config`, which are not part of
this repository snapshot.  Spec sections 3 and 4.1: a profile name must be
alphanumeric plus hyphen/underscore only, must not be `.` or `..`, must not
contain path separators; rejected profiles raise `InvalidProfile` before any
file I/O occurs. -/

inductive LoadError where
  | invalidProfile (profile : String)
deriving DecidableEq

/-- Characters allowed in a profile name. -/
def allowedProfileChar (c : Char) : Bool :=
  c.isAlpha || c.isDigit || c == '-' || c == '_'

/-- Modelled from the spec: the profile-name validator. -/
def validateProfile (p : String) : Except LoadError Unit :=
  if p = "." ∨ p = ".." then .error (.invalidProfile p)
  else if p.data.any (fun c => c == '/' || c == '\\') then .error (.invalidProfile p)
  else if p.data.all allowedProfileChar then .ok ()
  else .error (.invalidProfile p)

/-- Modelled from the spec (4.1): `load` validates the profile first; only in
the success case are layer files read through the filesystem oracle
`readFile` (missing layers are skipped silently).  Layer file names are
schematic — the spec fixes only the precedence order of the layers. -/
def layerNames : List String := ["defaults", "app", "host", "user", "dotenv"]

/-- Load the given profile through a filesystem oracle. -/
def loadConfig (readFile : String → Option EntryList) (p : String) :
    Except LoadError (List (String × EntryList)) :=
  match validateProfile p with
  | .error e => .error e
  | .ok _ =>
      .ok (layerNames.filterMap (fun l =>
        (readFile (l ++ "/" ++ p ++ ".toml")).map (fun es => (l, es))))

theorem mem_of_isPrefixOf :
    ∀ (n h : List Char), n.isPrefixOf h = true → ∀ c ∈ n, c ∈ h
  | [], _, _, c, hc => by simp at hc
  | a :: n', [], hp, c, hc => by simp [List.isPrefixOf] at hp
  | a :: n', b :: h', hp, c, hc => by
      simp only [List.isPrefixOf, Bool.and_eq_true] at hp
      obtain ⟨hab, hrest⟩ := hp
      have hab' : a = b := by simpa using hab
      rcases List.mem_cons.mp hc with he | ht
      · subst he
        rw [hab']
        exact List.mem_cons_self _ _
      · exact List.mem_cons_of_mem _ (mem_of_isPrefixOf n' h' hrest c ht)

theorem mem_of_hasInfix (n : List Char) (c : Char) (hc : c ∈ n) :
    ∀ h, hasInfix n h = true → c ∈ h
  | [], hinf => by
      unfold hasInfix at hinf
      have hn : n = [] := by simpa using hinf
      subst hn
      simp at hc
  | x :: rest, hinf => by
      unfold hasInfix at hinf
      simp only [Bool.or_eq_true] at hinf
      rcases hinf with hp | ht
      · exact mem_of_isPrefixOf n (x :: rest) hp c hc
      · exact List.mem_cons_of_mem x (mem_of_hasInfix n c hc rest ht)

theorem validateProfile_reject_of_mem (p : String) (c : Char) (hc : c ∈ p.data)
    (hbad : allowedProfileChar c = false) :
    validateProfile p = .error (.invalidProfile p) := by
  have hall : p.data.all allowedProfileChar = false := by
    rcases hb : p.data.all allowedProfileChar with _ | _
    · rfl
    · have := List.all_eq_true.mp hb c hc
      rw [hbad] at this
      exact absurd this (by simp)
  unfold validateProfile
  split_ifs with h1 h2 h3
  · rfl
  · rfl
  · rw [hall] at h3
    exact absurd h3 (by simp)
  · rfl

theorem validateProfile_accept (p : String) (h : p.data.all allowedProfileChar = true) :
    validateProfile p = .ok () := by
  unfold validateProfile
  split_ifs with h1 h2
  · rcases h1 with h1 | h1 <;> subst h1 <;> exact absurd h (by decide)
  · obtain ⟨c, hc, hcs⟩ := List.any_eq_true.mp h2
    have hgood := List.all_eq_true.mp h c hc
    have hcs' : c = '/' ∨ c = '\\' := by simpa using hcs
    rcases hcs' with h' | h' <;> subst h' <;> exact absurd hgood (by decide)
  · rfl

/-- C3: a profile name containing `..`, containing a path separator `/` (or
`\`), or equal to `.` or `..` makes validation and loading fail with
`InvalidProfile` for every filesystem oracle — in particular the result does
not depend on the oracle, so no file is read — while a name consisting only
of alphanumerics, hyphens and underscores is accepted and loading proceeds
to the layer files. -/
theorem claim_C3_profile_validation :
    (∀ p : String,
        containsSub ".." p = true ∨ containsSub "/" p = true ∨
          containsSub "\\" p = true ∨ p = "." ∨ p = ".." →
        validateProfile p = .error (.invalidProfile p)
        ∧ ∀ readFile, loadConfig readFile p = .error (.invalidProfile p))
    ∧ (∀ p : String, p.data.all allowedProfileChar = true →
        validateProfile p = .ok ()
        ∧ ∀ readFile, loadConfig readFile p =
            .ok (layerNames.filterMap (fun l =>
              (readFile (l ++ "/" ++ p ++ ".toml")).map (fun es => (l, es))))) := by
  constructor
  · intro p hp
    have hval : validateProfile p = .error (.invalidProfile p) := by
      rcases hp with h | h | h | h | h
      · exact validateProfile_reject_of_mem p '.'
          (mem_of_hasInfix "..".data '.' (by decide) p.data h) (by decide)
      · exact validateProfile_reject_of_mem p '/'
          (mem_of_hasInfix "/".data '/' (by decide) p.data h) (by decide)
      · exact validateProfile_reject_of_mem p '\\'
          (mem_of_hasInfix "\\".data '\\' (by decide) p.data h) (by decide)
      · unfold validateProfile
        rw [if_pos (Or.inl h)]
      · unfold validateProfile
        rw [if_pos (Or.inr h)]
    refine ⟨hval, fun readFile => ?_⟩
    unfold loadConfig
    rw [hval]
  · intro p hp
    have hval := validateProfile_accept p hp
    refine ⟨hval, fun readFile => ?_⟩
    unfold loadConfig
    rw [hval]

/-- Witness for C3 at concrete profile names: traversal-style names are
rejected independently of the filesystem oracle, and a plain name is
accepted. -/
theorem claim_C3_profile_validation_witness :
    validateProfile "../etc" = .error (.invalidProfile "../etc")
    ∧ loadConfig (fun _ => none) "../etc" = .error (.invalidProfile "../etc")
    ∧ validateProfile "a/b" = .error (.invalidProfile "a/b")
    ∧ validateProfile "." = .error (.invalidProfile ".")
    ∧ validateProfile ".." = .error (.invalidProfile "..")
    ∧ validateProfile "prod_2-test" = .ok () := by
  obtain ⟨hrej, hacc⟩ := claim_C3_profile_validation
  refine ⟨?_, ?_, ?_, ?_, ?_, ?_⟩
  · exact (hrej "../etc" (Or.inl (by decide))).1
  · exact (hrej "../etc" (Or.inl (by decide))).2 (fun _ => none)
  · exact (hrej "a/b" (Or.inr (Or.inl (by decide)))).1
  · exact (hrej "." (Or.inr (Or.inr (Or.inr (Or.inl rfl))))).1
  · exact (hrej ".." (Or.inr (Or.inr (Or.inr (Or.inr rfl))))).1
  · exact (hacc "prod_2-test" (by decide)).1

/-! ## Email adapter

Embeds `adapters/email/sender.py` and the override object of
`adapters/cli/commands/email.py`.  External collaborators are parameters:
the SMTP transport (`btx_lib_mail.send`, which the source wraps and whose
`RuntimeError` it converts) is an `Except String Bool` outcome, and the
runtime recipient validator (`adapters/email/validation.py`, absent from the
snapshot) is a function returning an error message on invalid input. -/

/-- Error classes raised by the email adapter: the domain errors of
`domain/errors.py` plus Python's builtin `ValueError`.  A `deliveryError`
carries both the user-facing message and the chained original text. -/
inductive EmailError where
  | valueError (msg : String)
  | invalidRecipient (msg : String)
  | configurationError (msg : String)
  | deliveryError (msg : String) (chained : String)
deriving DecidableEq

/-- The generic replacement message of `_sanitize_exception_message`. -/
def genericDeliveryMessage : String := "Email delivery failed. Check SMTP configuration."

/-- `_sanitize_exception_message` (sender.py): lowercase the exception text
and replace it with the generic message when it contains a sensitive
keyword, else pass it through. -/
def sanitizeExceptionMessage (msg : String) : String :=
  if sensitiveKeywords.any (fun w => containsSub w (lowerString msg)) then
    genericDeliveryMessage
  else msg

/-- `EmailConfig` (sender.py): validated, immutable email configuration.
Python `frozenset`/`Path` fields are modelled as string lists and the float
`timeout` as a rational; no claim does float arithmetic on it. -/
structure EmailConfig where
  smtp_hosts : List String := []
  from_address : Option String := none
  recipients : List String := []
  smtp_username : Option String := none
  smtp_password : Option String := none
  use_starttls : Bool := true
  timeout : Rat := 30
  raise_on_missing_attachments : Bool := true
  raise_on_invalid_recipient : Bool := true
  attachment_allowed_extensions : Option (List String) := none
  attachment_blocked_extensions : Option (List String) := none
  attachment_allowed_directories : Option (List String) := none
  attachment_blocked_directories : Option (List String) := none
  attachment_max_size_bytes : Option Int := some 26214400
  attachment_allow_symlinks : Bool := false
  attachment_raise_on_security_violation : Bool := true
deriving DecidableEq

/-- A value that may arrive from config files as a single string, a list, or
something else entirely (pydantic `mode="before"` input). -/
inductive RawStrOrList where
  | str (s : String)
  | list (l : List String)
  | other
deriving DecidableEq

/-- Whitespace test backing Python's `str.strip()` truthiness checks. -/
def isSpaceChar (c : Char) : Bool :=
  c == ' ' || c == '\t' || c == '\n' || c == '\r'

/-- Is the string empty or whitespace-only (Python `not v.strip()`)? -/
def isBlankStr (s : String) : Bool := s.data.all isSpaceChar

/-- `_coerce_string_to_list`: single strings become one-element lists, blank
strings and unsupported types become empty lists. -/
def coerceStrOrList : RawStrOrList → List String
  | .str s => if isBlankStr s then [] else [s]
  | .list l => l
  | .other => []

/-- `_coerce_empty_string_to_none`: blank strings mean "not configured". -/
def coerceOptStr : Option String → Option String
  | some s => if isBlankStr s then none else some s
  | none => none

/-- `_coerce_extension_lists` / `_coerce_directory_lists` on list input:
empty lists mean "use library defaults". -/
def coerceOptList : Option (List String) → Option (List String)
  | some [] => none
  | some l => some l
  | none => none

/-- `_coerce_max_size_zero_to_none`. -/
def coerceMaxSize : Option Int → Option Int
  | some 0 => none
  | v => v

/-- Pre-coercion constructor input for `EmailConfig`. -/
structure EmailConfigRaw where
  smtp_hosts : RawStrOrList := .list []
  from_address : Option String := none
  recipients : RawStrOrList := .list []
  smtp_username : Option String := none
  smtp_password : Option String := none
  use_starttls : Bool := true
  timeout : Rat := 30
  raise_on_missing_attachments : Bool := true
  raise_on_invalid_recipient : Bool := true
  attachment_allowed_extensions : Option (List String) := none
  attachment_blocked_extensions : Option (List String) := none
  attachment_allowed_directories : Option (List String) := none
  attachment_blocked_directories : Option (List String) := none
  attachment_max_size_bytes : Option Int := some 26214400
  attachment_allow_symlinks : Bool := false
  attachment_raise_on_security_violation : Bool := true

/-- `EmailConfig` construction: the pydantic field coercions followed by the
`_validate_config` model validator.  The `validate_email_address` /
`validate_smtp_host` calls delegate to the external `btx_lib_mail` package
and are modelled as accepting; the timeout check is from the source (its
error message renders the rational in place of the Python float). -/
def mkEmailConfig (raw : EmailConfigRaw) : Except String EmailConfig :=
  let cfg : EmailConfig := {
    smtp_hosts := coerceStrOrList raw.smtp_hosts
    from_address := coerceOptStr raw.from_address
    recipients := coerceStrOrList raw.recipients
    smtp_username := coerceOptStr raw.smtp_username
    smtp_password := coerceOptStr raw.smtp_password
    use_starttls := raw.use_starttls
    timeout := raw.timeout
    raise_on_missing_attachments := raw.raise_on_missing_attachments
    raise_on_invalid_recipient := raw.raise_on_invalid_recipient
    attachment_allowed_extensions := coerceOptList raw.attachment_allowed_extensions
    attachment_blocked_extensions := coerceOptList raw.attachment_blocked_extensions
    attachment_allowed_directories := coerceOptList raw.attachment_allowed_directories
    attachment_blocked_directories := coerceOptList raw.attachment_blocked_directories
    attachment_max_size_bytes := coerceMaxSize raw.attachment_max_size_bytes
    attachment_allow_symlinks := raw.attachment_allow_symlinks
    attachment_raise_on_security_violation := raw.attachment_raise_on_security_violation }
  if cfg.timeout ≤ 0 then
    .error ("timeout must be positive, got " ++ toString cfg.timeout)
  else
    .ok cfg

/-- `SmtpConfigOverrides` (commands/email.py): sentinel-valued CLI override
carrier. -/
structure SmtpConfigOverrides where
  smtp_hosts : List String := []
  smtp_username : Option String := none
  smtp_password : Option String := none
  use_starttls : Option Bool := none
  timeout : Option Rat := none
  raise_on_missing_attachments : Option Bool := none
  raise_on_invalid_recipient : Option Bool := none
deriving DecidableEq

/-- `SmtpConfigOverrides.apply_to`: build a new config with every
non-sentinel field replaced (pydantic `model_copy(update=...)`, which does
not re-run validation). -/
def SmtpConfigOverrides.applyTo (o : SmtpConfigOverrides) (config : EmailConfig) : EmailConfig :=
  { config with
    smtp_hosts := if o.smtp_hosts.isEmpty then config.smtp_hosts else o.smtp_hosts
    smtp_username := match o.smtp_username with
      | some u => some u
      | none => config.smtp_username
    smtp_password := match o.smtp_password with
      | some pw => some pw
      | none => config.smtp_password
    use_starttls := o.use_starttls.getD config.use_starttls
    timeout := o.timeout.getD config.timeout
    raise_on_missing_attachments :=
      o.raise_on_missing_attachments.getD config.raise_on_missing_attachments
    raise_on_invalid_recipient :=
      o.raise_on_invalid_recipient.getD config.raise_on_invalid_recipient }

/-- `_resolve_sender`: an explicit override wins over the config default;
with neither, a `ValueError` is raised. -/
def resolveSender (config : EmailConfig) (from_address : Option String) :
    Except EmailError String :=
  match (match from_address with | some a => some a | none => config.from_address) with
  | none => .error (.valueError "No from_address configured and no override provided")
  | some s => .ok s

/-- `_validate_smtp_hosts`: at least one SMTP host must be configured. -/
def validateSmtpHosts (config : EmailConfig) : Except EmailError Unit :=
  if config.smtp_hosts.isEmpty then
    .error (.configurationError "No SMTP hosts configured (email.smtp_hosts is empty)")
  else .ok ()

/-- `_resolve_recipients`: an explicit argument replaces the config default
entirely; runtime recipients go through the external validator first; an
empty result is a `ValueError`.  A single-string argument is modelled as a
one-element list, as the source normalises it. -/
def resolveRecipients (validateRec : List String → Option String)
    (config : EmailConfig) (recipients : Option (List String)) :
    Except EmailError (List String) :=
  match recipients with
  | some rl =>
      match validateRec rl with
      | some m => .error (.invalidRecipient m)
      | none =>
          if rl.isEmpty then
            .error (.valueError "No recipients configured and no override provided")
          else .ok rl
  | none =>
      if config.recipients.isEmpty then
        .error (.valueError "No recipients configured and no override provided")
      else .ok config.recipients

/-- `send_email`: resolve the sender, check the SMTP hosts, resolve the
recipients, then attempt delivery through the transport; a transport
`RuntimeError` becomes a `DeliveryError` carrying the sanitized message with
the original chained. -/
def sendEmail (validateRec : List String → Option String)
    (transport : Except String Bool)
    (config : EmailConfig) (recipients : Option (List String))
    (subject body body_html : String) (from_address : Option String)
    (attachments : Option (List String)) : Except EmailError Bool :=
  match resolveSender config from_address with
  | .error e => .error e
  | .ok _sender =>
    match validateSmtpHosts config with
    | .error e => .error e
    | .ok _ =>
      match resolveRecipients validateRec config recipients with
      | .error e => .error e
      | .ok _rl =>
        match transport with
        | .error exc => .error (.deliveryError (sanitizeExceptionMessage exc) exc)
        | .ok result => .ok result

/-- `send_notification`: the convenience wrapper forwarding to `send_email`
with the message as plain-text body, no HTML body and no attachments. -/
def sendNotification (validateRec : List String → Option String)
    (transport : Except String Bool)
    (config : EmailConfig) (recipients : Option (List String))
    (subject message : String) (from_address : Option String) : Except EmailError Bool :=
  sendEmail validateRec transport config recipients subject message "" from_address none

/-- Does the call outcome carry a `ConfigurationError`? -/
def isConfigurationErrorResult : Except EmailError Bool → Bool
  | .error (.configurationError _) => true
  | _ => false

/-- Configuration used by the C6 counterexample: no SMTP hosts, no sender,
no recipients (all defaults). -/
def c6config : EmailConfig := {}

/-- Counterexample to C6 as stated: with empty `smtp_hosts` AND no
`from_address` anywhere, `send_email` raises the missing-sender
`ValueError`, not a `ConfigurationError` — sender resolution runs first in
the source. -/
theorem claim_C6_counterexample :
    sendEmail (fun _ => none) (.ok true) c6config none "s" "b" "" none none
      = .error (.valueError "No from_address configured and no override provided")
    ∧ isConfigurationErrorResult
        (sendEmail (fun _ => none) (.ok true) c6config none "s" "b" "" none none) = false := by
  constructor
  · rfl
  · rfl

/-- C6 (amended): whenever the sender resolves (an explicit `from_address`
or a configured one), an empty `smtp_hosts` list makes `send_email` fail
with the distinct `ConfigurationError` before recipient validation and
before any delivery attempt — the outcome is independent of the recipient
validator, the recipients (even empty) and the transport. -/
theorem claim_C6_empty_hosts :
    ∀ (validateRec : List String → Option String) (transport : Except String Bool)
      (config : EmailConfig) (recipients : Option (List String))
      (subject body body_html : String) (from_address : Option String)
      (attachments : Option (List String)),
      config.smtp_hosts = [] →
      (from_address.isSome ∨ config.from_address.isSome) →
      sendEmail validateRec transport config recipients subject body body_html
          from_address attachments
        = .error (.configurationError "No SMTP hosts configured (email.smtp_hosts is empty)") := by
  intro validateRec transport config recipients subject body body_html from_address attachments
    hhosts hsender
  have hresolve : ∃ s, resolveSender config from_address = .ok s := by
    unfold resolveSender
    cases hf : from_address with
    | some a => exact ⟨a, rfl⟩
    | none =>
        rcases hsender with hs | hs
        · rw [hf] at hs
          simp [Option.isSome] at hs
        · cases hc : config.from_address with
          | some b => exact ⟨b, rfl⟩
          | none => rw [hc] at hs; simp [Option.isSome] at hs
  obtain ⟨s, hres⟩ := hresolve
  unfold sendEmail
  rw [hres]
  unfold validateSmtpHosts
  rw [hhosts]
  simp

/-- Witness for the amended C6: empty hosts with a configured sender and no
recipients at all still yields the `ConfigurationError`. -/
theorem claim_C6_empty_hosts_witness :
    sendEmail (fun _ => none) (.ok true)
        { smtp_hosts := [], from_address := some "noreply@example.com" }
        none "s" "b" "" none none
      = .error (.configurationError "No SMTP hosts configured (email.smtp_hosts is empty)") :=
  claim_C6_empty_hosts (fun _ => none) (.ok true)
    { smtp_hosts := [], from_address := some "noreply@example.com" }
    none "s" "b" "" none none rfl (Or.inr rfl)

/-- Configuration used by the C7 counterexample: hosts configured but no
sender anywhere. -/
def c7config : EmailConfig := { smtp_hosts := ["smtp.example.com:587"] }

/-- Counterexample to C7 as stated: with no `from_address` argument and no
configured default, the error raised is a plain `ValueError`
("No from_address configured and no override provided"), not a
`ConfigurationError`-class error — `ConfigurationError` is a distinct class
in `domain/errors.py` reserved for the missing-hosts case. -/
theorem claim_C7_counterexample :
    sendEmail (fun _ => none) (.ok true) c7config (some ["to@example.com"]) "s" "b" "" none none
      = .error (.valueError "No from_address configured and no override provided")
    ∧ isConfigurationErrorResult
        (sendEmail (fun _ => none) (.ok true) c7config (some ["to@example.com"])
          "s" "b" "" none none) = false := by
  constructor
  · rfl
  · rfl

/-- C7 (amended): the sender resolves to the explicit `from_address`
argument when given, else to `config.from_address`; with neither, every
`send_email` call fails with the missing-sender `ValueError` regardless of
transport, recipients and validator — no delivery is attempted. -/
theorem claim_C7_sender_resolution :
    (∀ (config : EmailConfig) (a : String), resolveSender config (some a) = .ok a)
    ∧ (∀ (config : EmailConfig) (b : String), config.from_address = some b →
        resolveSender config none = .ok b)
    ∧ (∀ (config : EmailConfig), config.from_address = none →
        ∀ (validateRec : List String → Option String) (transport : Except String Bool)
          (recipients : Option (List String)) (subject body body_html : String)
          (attachments : Option (List String)),
          sendEmail validateRec transport config recipients subject body body_html
              none attachments
            = .error (.valueError "No from_address configured and no override provided")) := by
  refine ⟨fun config a => rfl, ?_, ?_⟩
  · intro config b hb
    unfold resolveSender
    rw [hb]
  · intro config hnone validateRec transport recipients subject body body_html attachments
    unfold sendEmail resolveSender
    rw [hnone]

/-- Witness for the amended C7 at concrete inputs: override wins, config
default is used, and the missing-sender failure is transport-independent. -/
theorem claim_C7_sender_resolution_witness :
    resolveSender c7config (some "boss@example.com") = .ok "boss@example.com"
    ∧ resolveSender { c7config with from_address := some "noreply@example.com" } none
        = .ok "noreply@example.com"
    ∧ sendEmail (fun _ => none) (.error "connection refused") c7config
        (some ["to@example.com"]) "s" "b" "" none none
        = .error (.valueError "No from_address configured and no override provided") := by
  obtain ⟨h1, h2, h3⟩ := claim_C7_sender_resolution
  exact ⟨h1 c7config "boss@example.com",
    h2 { c7config with from_address := some "noreply@example.com" } "noreply@example.com" rfl,
    h3 c7config rfl (fun _ => none) (.error "connection refused")
      (some ["to@example.com"]) "s" "b" "" none⟩

/-- C8: when the transport raises during delivery (after sender, hosts and
recipients all resolved), the surfaced `DeliveryError` carries the sanitized
message — the fixed generic text when the lowercased original contains a
sensitive keyword, the original verbatim otherwise — and the original text
is preserved in the chained slot. -/
theorem claim_C8_sanitized_delivery :
    (∀ (validateRec : List String → Option String) (config : EmailConfig)
        (recipients : Option (List String)) (subject body body_html : String)
        (from_address : Option String) (attachments : Option (List String))
        (exc sender : String) (rl : List String),
        resolveSender config from_address = .ok sender →
        validateSmtpHosts config = .ok () →
        resolveRecipients validateRec config recipients = .ok rl →
        sendEmail validateRec (.error exc) config recipients subject body body_html
            from_address attachments
          = .error (.deliveryError (sanitizeExceptionMessage exc) exc))
    ∧ (∀ exc : String,
        sensitiveKeywords.any (fun w => containsSub w (lowerString exc)) = true →
        sanitizeExceptionMessage exc = genericDeliveryMessage)
    ∧ (∀ exc : String,
        sensitiveKeywords.any (fun w => containsSub w (lowerString exc)) = false →
        sanitizeExceptionMessage exc = exc) := by
  refine ⟨?_, ?_, ?_⟩
  · intro validateRec config recipients subject body body_html from_address attachments
      exc sender rl hres hhosts hrecip
    unfold sendEmail
    rw [hres, hhosts, hrecip]
  · intro exc h
    unfold sanitizeExceptionMessage
    rw [if_pos h]
  · intro exc h
    unfold sanitizeExceptionMessage
    rw [if_neg (by simp [h])]

/-- Configuration used by the C8 witness. -/
def c8config : EmailConfig :=
  { smtp_hosts := ["smtp.example.com:587"],
    from_address := some "noreply@example.com",
    recipients := ["ops@example.com"] }

/-- Witness for C8: a credential-looking transport failure is replaced by
the generic message (original chained), an innocuous one passes through. -/
theorem claim_C8_sanitized_delivery_witness :
    sendEmail (fun _ => none) (.error "Auth password rejected") c8config
        none "s" "b" "" none none
      = .error (.deliveryError genericDeliveryMessage "Auth password rejected")
    ∧ sendEmail (fun _ => none) (.error "Connection refused") c8config
        none "s" "b" "" none none
      = .error (.deliveryError "Connection refused" "Connection refused") := by
  obtain ⟨h1, h2, h3⟩ := claim_C8_sanitized_delivery
  constructor
  · have := h1 (fun _ => none) c8config none "s" "b" "" none none
      "Auth password rejected" "noreply@example.com" ["ops@example.com"] rfl rfl rfl
    rw [this, h2 "Auth password rejected" (by decide)]
  · have := h1 (fun _ => none) c8config none "s" "b" "" none none
      "Connection refused" "noreply@example.com" ["ops@example.com"] rfl rfl rfl
    rw [this, h3 "Connection refused" (by decide)]

/-- C9: a successfully constructed `EmailConfig` satisfies `timeout > 0`;
construction with `timeout <= 0` fails with the validation error; and
applying CLI SMTP overrides produces a new configuration whose override
fields take the non-sentinel values while every other field — and the
original instance, the model being purely functional — is left unchanged. -/
theorem claim_C9_email_config_invariants :
    (∀ (raw : EmailConfigRaw) (cfg : EmailConfig),
        mkEmailConfig raw = .ok cfg → 0 < cfg.timeout)
    ∧ (∀ raw : EmailConfigRaw, raw.timeout ≤ 0 →
        mkEmailConfig raw = .error ("timeout must be positive, got " ++ toString raw.timeout))
    ∧ (∀ (o : SmtpConfigOverrides) (c : EmailConfig),
        (o.applyTo c).smtp_hosts
            = (if o.smtp_hosts.isEmpty then c.smtp_hosts else o.smtp_hosts)
          ∧ (o.applyTo c).smtp_username
              = (match o.smtp_username with | some u => some u | none => c.smtp_username)
          ∧ (o.applyTo c).smtp_password
              = (match o.smtp_password with | some pw => some pw | none => c.smtp_password)
          ∧ (o.applyTo c).use_starttls = o.use_starttls.getD c.use_starttls
          ∧ (o.applyTo c).timeout = o.timeout.getD c.timeout
          ∧ (o.applyTo c).raise_on_missing_attachments
              = o.raise_on_missing_attachments.getD c.raise_on_missing_attachments
          ∧ (o.applyTo c).raise_on_invalid_recipient
              = o.raise_on_invalid_recipient.getD c.raise_on_invalid_recipient
          ∧ (o.applyTo c).from_address = c.from_address
          ∧ (o.applyTo c).recipients = c.recipients
          ∧ (o.applyTo c).attachment_allowed_extensions = c.attachment_allowed_extensions
          ∧ (o.applyTo c).attachment_blocked_extensions = c.attachment_blocked_extensions
          ∧ (o.applyTo c).attachment_allowed_directories = c.attachment_allowed_directories
          ∧ (o.applyTo c).attachment_blocked_directories = c.attachment_blocked_directories
          ∧ (o.applyTo c).attachment_max_size_bytes = c.attachment_max_size_bytes
          ∧ (o.applyTo c).attachment_allow_symlinks = c.attachment_allow_symlinks
          ∧ (o.applyTo c).attachment_raise_on_security_violation
              = c.attachment_raise_on_security_violation) := by
  refine ⟨?_, ?_, ?_⟩
  · intro raw cfg h
    unfold mkEmailConfig at h
    by_cases ht : raw.timeout ≤ 0
    · rw [if_pos ht] at h
      exact absurd h (by simp)
    · have hok : cfg.timeout = raw.timeout := by
        rw [if_neg ht] at h
        injection h with h
        rw [← h]
      rw [hok]
      exact lt_of_not_le ht
  · intro raw ht
    unfold mkEmailConfig
    rw [if_pos ht]
  · intro o c
    refine ⟨rfl, rfl, rfl, rfl, rfl, rfl, rfl, rfl, rfl, rfl, rfl, rfl, rfl, rfl, rfl, rfl⟩

/-- Raw input for the C9 witness. -/
def c9raw : EmailConfigRaw := { smtp_hosts := .list ["smtp.example.com:587"] }

/-- Expected constructed configuration for the C9 witness. -/
def c9cfg : EmailConfig := { smtp_hosts := ["smtp.example.com:587"] }

/-- Witness for C9: a default construction succeeds with positive timeout, a
negative timeout is rejected with the validation message, and a concrete
override replaces exactly the overridden fields. -/
theorem claim_C9_email_config_invariants_witness :
    (0 : Rat) < c9cfg.timeout
    ∧ mkEmailConfig { timeout := -5 }
        = .error ("timeout must be positive, got " ++ toString (-5 : Rat))
    ∧ (SmtpConfigOverrides.applyTo { timeout := some 60 } c8config).timeout = 60
    ∧ (SmtpConfigOverrides.applyTo { timeout := some 60 } c8config).from_address
        = some "noreply@example.com" := by
  obtain ⟨h1, h2, h3⟩ := claim_C9_email_config_invariants
  refine ⟨?_, h2 { timeout := -5 } (by norm_num), ?_, ?_⟩
  · exact h1 c9raw c9cfg (by rfl)
  · exact ((h3 { timeout := some 60 } c8config).2.2.2.2.1).trans rfl
  · exact (h3 { timeout := some 60 } c8config).2.2.2.2.2.2.2.1

/-- C10: `send_notification` forwards to `send_email` with the message as
plain-text body, empty HTML body, no attachments and the same sender
override — identical boolean result and identical failure in every case,
for every transport outcome and recipient validator. -/
theorem claim_C10_notification_refines_send :
    ∀ (validateRec : List String → Option String) (transport : Except String Bool)
      (config : EmailConfig) (recipients : Option (List String))
      (subject message : String) (from_address : Option String),
      sendNotification validateRec transport config recipients subject message from_address
        = sendEmail validateRec transport config recipients subject message "" from_address none :=
  fun _ _ _ _ _ _ _ => rfl

/-! ## Configuration display renderer

Embeds `adapters/config/display.py`.  Rich console styling is abstracted to
the plain text of each printed line; `click.echo`/`con.print` output becomes
an ordered list of lines (a bare `con.print()` is an empty line).  The
`Config` object of `lib_layered_config` is modelled per spec 4.1 as the
merged tree plus a provenance lookup; its `to_json(indent=2, redact=True)`
is the 2-space-indented JSON of the redacted tree. -/

/-- Provenance record: the layer that last set a key and the originating
file path (absent for env/CLI layers). -/
structure SourceInfo where
  layer : String
  path : Option String
deriving DecidableEq

/-- Merged configuration: the value tree plus per-dotted-key provenance. -/
structure Config where
  entries : EntryList
  origins : List (String × SourceInfo)

/-- Association-list lookup for provenance records. -/
def lookupOrigin (key : String) : List (String × SourceInfo) → Option SourceInfo
  | [] => none
  | (k, i) :: t => if k = key then some i else lookupOrigin key t

/-- `Config.origin(dotted_key)`. -/
def Config.origin (cfg : Config) (key : String) : Option SourceInfo :=
  lookupOrigin key cfg.origins

/-- `Config.get(dotted_key, default=None)`, `none` meaning absent. -/
def Config.get (cfg : Config) (key : String) : Option Value :=
  getDotted cfg.entries key

/-- Is the outcome a success? -/
def exceptIsOk {ε α : Type} : Except ε α → Bool
  | .ok _ => true
  | .error _ => false

/-- JSON string escaping (quote and backslash; other characters in the
claims' data need no escaping). -/
def jsonEscape (s : String) : String :=
  ⟨s.data.foldr (fun c acc => if c = '"' ∨ c = '\\' then '\\' :: c :: acc else c :: acc) []⟩

mutual

/-- Compact `orjson.dumps` serialization. -/
def jsonCompact : Value → String
  | .vStr s => "\"" ++ jsonEscape s ++ "\""
  | .vInt n => toString n
  | .vBool b => if b then "true" else "false"
  | .vFloat lit => lit
  | .vList xs => "[" ++ jsonCompactList xs ++ "]"
  | .vDict es => lbr ++ jsonCompactEntries es ++ rbr

/-- Comma-joined compact serialization of sequence elements. -/
def jsonCompactList : ValueList → String
  | .nil => ""
  | .cons v .nil => jsonCompact v
  | .cons v t => jsonCompact v ++ "," ++ jsonCompactList t

/-- Comma-joined compact serialization of mapping entries. -/
def jsonCompactEntries : EntryList → String
  | .nil => ""
  | .cons k v .nil => "\"" ++ jsonEscape k ++ "\":" ++ jsonCompact v
  | .cons k v t => "\"" ++ jsonEscape k ++ "\":" ++ jsonCompact v ++ "," ++ jsonCompactEntries t

end

/-- Indentation padding. -/
def pad (n : Nat) : String := ⟨List.replicate n ' '⟩

mutual

/-- `orjson.dumps(..., option=orjson.OPT_INDENT_2)` pretty serialization at
the given current indent. -/
def jsonPretty (ind : Nat) : Value → String
  | .vDict .nil => lbr ++ rbr
  | .vDict es =>
      lbr ++ "\n" ++ jsonPrettyEntries (ind + 2) es ++ "\n" ++ pad ind ++ rbr
  | .vList .nil => "[]"
  | .vList xs =>
      "[" ++ "\n" ++ jsonPrettyList (ind + 2) xs ++ "\n" ++ pad ind ++ "]"
  | v => jsonCompact v

/-- Pretty-printed sequence elements, one per line. -/
def jsonPrettyList (ind : Nat) : ValueList → String
  | .nil => ""
  | .cons v .nil => pad ind ++ jsonPretty ind v
  | .cons v t => pad ind ++ jsonPretty ind v ++ ",\n" ++ jsonPrettyList ind t

/-- Pretty-printed mapping entries, one per line. -/
def jsonPrettyEntries (ind : Nat) : EntryList → String
  | .nil => ""
  | .cons k v .nil => pad ind ++ "\"" ++ jsonEscape k ++ "\": " ++ jsonPretty ind v
  | .cons k v t =>
      pad ind ++ "\"" ++ jsonEscape k ++ "\": " ++ jsonPretty ind v ++ ",\n"
        ++ jsonPrettyEntries ind t

end

/-- Python `str(value)` for the scalar configuration values reached by
`_format_raw_value`'s fall-through branch. -/
def pyStrValue : Value → String
  | .vStr s => s
  | .vInt n => toString n
  | .vBool b => if b then "True" else "False"
  | .vFloat lit => lit
  | .vList xs => jsonCompact (.vList xs)
  | .vDict es => jsonCompact (.vDict es)

/-- `_format_raw_value`: lists as compact JSON, strings quoted verbatim,
everything else via `f"{value}"` (the list/dict fall-through cases are
unreachable from the display paths, which branch on them earlier). -/
def formatRawValue : Value → String
  | .vList xs => jsonCompact (.vList xs)
  | .vStr s => "\"" ++ s ++ "\""
  | v => pyStrValue v

/-- `_styled_entry` stripped of Rich styling: the text of the printed line. -/
def styledEntry (key : String) (v : Value) (indent : String) : String :=
  indent ++ key ++ " = " ++ formatRawValue v

/-- `_format_source_line`. -/
def formatSourceLine (info : SourceInfo) (indent : String) : String :=
  match info.path with
  | some p => indent ++ "# source: " ++ info.layer ++ " (" ++ p ++ ")"
  | none => indent ++ "# source: " ++ info.layer

/-- `_SECTION_INDENT`. -/
def sectionIndent : String := "    "

/-- `_TOPLEVEL_INDENT`. -/
def toplevelIndent : String := ""

mutual

/-- `_print_section`: a `[section]` header (with its leading newline), then
the entries — nested mappings recurse as dotted sub-sections, leaves get an
optional provenance comment, the styled entry line and a blank line. -/
def printSection (cfg : Config) (sectionName : String) (data : EntryList) : List String :=
  ("\n[" ++ sectionName ++ "]") :: printSectionEntries cfg sectionName data

/-- Lines for the entries of one section. -/
def printSectionEntries (cfg : Config) (sectionName : String) : EntryList → List String
  | .nil => []
  | .cons k v t =>
      (match v with
       | .vDict sub => printSection cfg (sectionName ++ "." ++ k) sub
       | _ =>
          (match cfg.origin (sectionName ++ "." ++ k) with
           | some info => [formatSourceLine info sectionIndent]
           | none => [])
            ++ [styledEntry k v sectionIndent, ""])
        ++ printSectionEntries cfg sectionName t

end

/-- Top-level scalar lines of the full display (`_display_human`, first
loop: non-dict values with optional provenance comments). -/
def displayScalars (cfg : Config) : EntryList → List String
  | .nil => []
  | .cons k v t =>
      (match v with
       | .vDict _ => []
       | _ =>
          (match cfg.origin k with
           | some info => [formatSourceLine info toplevelIndent]
           | none => [])
            ++ [styledEntry k v toplevelIndent, ""])
        ++ displayScalars cfg t

/-- Top-level section blocks of the full display (`_display_human`, second
loop: dict values as sections). -/
def displaySections (cfg : Config) : EntryList → List String
  | .nil => []
  | .cons k v t =>
      (match v with
       | .vDict sub => printSection cfg k sub
       | _ => [])
        ++ displaySections cfg t

/-- Full-tree human display: scalars print before section headers, over the
redacted tree (`as_dict(redact=True)`). -/
def displayHumanAll (cfg : Config) : List String :=
  displayScalars cfg (redactEntries cfg.entries)
    ++ displaySections cfg (redactEntries cfg.entries)

/-- The `ValueError` message for a missing section. -/
def sectionNotFoundMessage (sect : String) : String :=
  "Section " ++ sq ++ sect ++ sq ++ " not found"

/-- `_display_human`: Python's `if section:` treats `None` and `""` alike
(full display); otherwise a missing section raises, a present one is
redacted as a one-entry mapping and rendered as a section or a single
top-level entry. -/
def displayHuman (cfg : Config) (sect : Option String) : Except String (List String) :=
  match sect with
  | some s =>
      if s = "" then .ok (displayHumanAll cfg)
      else
        match cfg.get s with
        | none => .error (sectionNotFoundMessage s)
        | some sectionData =>
            match (lookupEntry s (redactEntries (.cons s sectionData .nil))).getD (.vStr "") with
            | .vDict sub => .ok (printSection cfg s sub)
            | rv =>
                .ok ((match cfg.origin s with
                      | some info => [formatSourceLine info toplevelIndent]
                      | none => [])
                  ++ [styledEntry s rv toplevelIndent, ""])
  | none => .ok (displayHumanAll cfg)

/-- `_display_json`: same `if section:` truthiness and missing-section
check; output is one string of 2-space-indented JSON of the redacted
selection. -/
def displayJson (cfg : Config) (sect : Option String) : Except String (List String) :=
  match sect with
  | some s =>
      if s = "" then .ok [jsonPretty 0 (.vDict (redactEntries cfg.entries))]
      else
        match cfg.get s with
        | none => .error (sectionNotFoundMessage s)
        | some sectionData =>
            .ok [jsonPretty 0 (.vDict (redactEntries (.cons s sectionData .nil)))]
  | none => .ok [jsonPretty 0 (.vDict (redactEntries cfg.entries))]

/-- `OutputFormat` (domain/enums.py, absent from the snapshot; the two
members are fixed by the CLI contract). -/
inductive OutputFormat where
  | human
  | json
deriving DecidableEq

/-- `display_config`: dispatch on the output format. -/
def displayConfig (cfg : Config) (output_format : OutputFormat) (sect : Option String) :
    Except String (List String) :=
  match output_format with
  | .json => displayJson cfg sect
  | .human => displayHuman cfg sect

/-- Configuration for the C4 counterexample: the empty section name is
absent from the tree, yet display succeeds (Python's `if section:` treats
`""` as "no section requested" and shows the whole tree). -/
def c4cfg : Config := ⟨.cons "other" (.vDict (.cons "x" (.vInt 1) .nil)) .nil, []⟩

/-- Counterexample to C4 as stated: requesting section `""` — a name absent
from the tree — does not raise `SectionNotFound` in either format; the full
configuration is displayed instead. -/
theorem claim_C4_counterexample :
    Config.get c4cfg "" = none
    ∧ exceptIsOk (displayConfig c4cfg .human (some "")) = true
    ∧ exceptIsOk (displayConfig c4cfg .json (some "")) = true := by
  refine ⟨by decide, by decide, by decide⟩

/-- C4 (amended): for every nonempty requested section name, display
succeeds whenever the section is present — with the (redacted) value
printed as a `key = value` line when it is not a mapping, falsy values
included — and fails with the `SectionNotFound` `ValueError` exactly when
the section is absent, in both human and JSON formats.  (The empty section
name is treated as "no section requested" and shows the full tree.) -/
theorem claim_C4_section_display :
    ∀ (cfg : Config) (s : String), s ≠ "" →
      (∀ v : Value, cfg.get s = some v →
          exceptIsOk (displayConfig cfg .human (some s)) = true
          ∧ exceptIsOk (displayConfig cfg .json (some s)) = true
          ∧ (∀ rv : Value,
              (lookupEntry s (redactEntries (.cons s v .nil))).getD (.vStr "") = rv →
              rv.isDict = false →
              ∃ lines, displayConfig cfg .human (some s) = .ok lines
                ∧ styledEntry s rv toplevelIndent ∈ lines))
      ∧ (cfg.get s = none →
          displayConfig cfg .human (some s) = .error (sectionNotFoundMessage s)
          ∧ displayConfig cfg .json (some s) = .error (sectionNotFoundMessage s)) := by
  intro cfg s hs
  constructor
  · intro v hv
    refine ⟨?_, ?_, ?_⟩
    · simp only [displayConfig, displayHuman, if_neg hs, hv]
      cases hrv : (lookupEntry s (redactEntries (.cons s v .nil))).getD (.vStr "") <;> rfl
    · simp only [displayConfig, displayJson, if_neg hs, hv]
      rfl
    · intro rv hrv hscalar
      simp only [displayConfig, displayHuman, if_neg hs, hv, hrv]
      cases rv with
      | vDict es => simp [Value.isDict] at hscalar
      | vStr t =>
          exact ⟨_, rfl, List.mem_append.mpr (Or.inr (List.mem_cons_self _ _))⟩
      | vInt n =>
          exact ⟨_, rfl, List.mem_append.mpr (Or.inr (List.mem_cons_self _ _))⟩
      | vBool b =>
          exact ⟨_, rfl, List.mem_append.mpr (Or.inr (List.mem_cons_self _ _))⟩
      | vFloat f =>
          exact ⟨_, rfl, List.mem_append.mpr (Or.inr (List.mem_cons_self _ _))⟩
      | vList xs =>
          exact ⟨_, rfl, List.mem_append.mpr (Or.inr (List.mem_cons_self _ _))⟩
  · intro hnone
    constructor
    · simp only [displayConfig, displayHuman, if_neg hs, hnone]
    · simp only [displayConfig, displayJson, if_neg hs, hnone]

/-- Section value of the C4 witness: every leaf is falsy. -/
def c4sectionValue : Value :=
  .vDict (.cons "count" (.vInt 0)
    (.cons "enabled" (.vBool false)
      (.cons "name" (.vStr "")
        (.cons "items" (.vList .nil) .nil))))

/-- Configuration whose only section holds falsy leaves. -/
def c4falsyCfg : Config := ⟨.cons "section" c4sectionValue .nil, []⟩

/-- Configuration with a falsy top-level scalar. -/
def c4scalarCfg : Config := ⟨.cons "app_name" (.vStr "") .nil, []⟩

/-- Witness for the amended C4: a section of falsy leaves displays in both
formats, a falsy scalar section prints its `key = value` line, and a
missing section raises the `SectionNotFound` message in both formats. -/
theorem claim_C4_section_display_witness :
    exceptIsOk (displayConfig c4falsyCfg .human (some "section")) = true
    ∧ exceptIsOk (displayConfig c4falsyCfg .json (some "section")) = true
    ∧ (∃ lines, displayConfig c4scalarCfg .human (some "app_name") = .ok lines
        ∧ styledEntry "app_name" (.vStr "") toplevelIndent ∈ lines)
    ∧ displayConfig c4falsyCfg .human (some "missing")
        = .error (sectionNotFoundMessage "missing")
    ∧ displayConfig c4falsyCfg .json (some "missing")
        = .error (sectionNotFoundMessage "missing") := by
  have hmain := claim_C4_section_display
  refine ⟨?_, ?_, ?_, ?_, ?_⟩
  · exact ((hmain c4falsyCfg "section" (by decide)).1 c4sectionValue (by decide)).1
  · exact ((hmain c4falsyCfg "section" (by decide)).1 c4sectionValue (by decide)).2.1
  · exact ((hmain c4scalarCfg "app_name" (by decide)).1 (.vStr "") (by decide)).2.2
      (.vStr "") (by decide) (by decide)
  · exact ((hmain c4falsyCfg "missing" (by decide)).2 (by decide)).1
  · exact ((hmain c4falsyCfg "missing" (by decide)).2 (by decide)).2

/-- Configuration used by the C5 evidence theorem, mirroring the repo test
`test_when_config_section_is_invalid_it_exits_with_code_22`. -/
def c5cfg : Config :=
  ⟨.cons "existing_section" (.vDict (.cons "key" (.vStr "value") .nil)) .nil, []⟩

/-- C5 evidence: at the failing input, the display layer raises the
`ValueError` whose text the `except ValueError` handler of `cli_config`
would print as `\nError: Section '...' not found` before exiting with the
invalid-argument code 22; that stderr text contains "not found" (as the
claim says) but not the "not found or empty" the repo's own tests assert —
and the handler is never reached at all, because `cli_config` passes the
keyword `format` to `display_config`, whose parameter is `output_format`. -/
theorem claim_C5_section_error_evidence :
    displayConfig c5cfg .human (some "nonexistent_section_that_does_not_exist")
      = .error (sectionNotFoundMessage "nonexistent_section_that_does_not_exist")
    ∧ containsSub "not found"
        ("\nError: " ++ sectionNotFoundMessage "nonexistent_section_that_does_not_exist") = true
    ∧ containsSub "not found or empty"
        ("\nError: " ++ sectionNotFoundMessage "nonexistent_section_that_does_not_exist")
      = false := by
  refine ⟨by decide, by decide, by decide⟩

end BitranoxTemplate
